import Mathlib

/-!
Shallow embedding of the vertex-attribute layout core of `rustic_gl`
(`src/attributes.rs`): element descriptors (the `ToGlAttrib` impls),
the attribute chain (`Attribute<T, A>` / `AttributeTail`), the layout
planner (`padding`, `stride`, `declare`) and the chain builder
(the `buffer_layout` macro family).

Conventions: Rust `usize` values are `Nat`; Rust `i32` values are `Int`,
with Rust's truncating `%` rendered as `Int.tmod`; the `total as usize`
cast is `Int.toNat` (exact for the non-negative totals reachable from the
public entry points); the `i32 % 0` panic in the terminal stride step is
modelled by an `Option` result.
-/

namespace RusticGl

/-- The scalar storage kinds with a raw `ToGlAttrib` impl in the source
(`impl_ToGlAttrib!` block). -/
inductive BaseKind
  | i8
  | i16
  | i32
  | u8
  | u16
  | u32
  | f32
  | f64
  | bool
deriving DecidableEq, Repr

/-- The integer kinds that also get a `Normalized<_>` impl
(`impl_ToNormalizedGlAttrib!` block). -/
inductive IntKind
  | i8
  | i16
  | i32
  | u8
  | u16
  | u32
deriving DecidableEq, Repr

/-- The underlying raw kind of a normalized integer kind. -/
def IntKind.toBase : IntKind → BaseKind
  | .i8 => .i8
  | .i16 => .i16
  | .i32 => .i32
  | .u8 => .u8
  | .u16 => .u16
  | .u32 => .u32

/-- `std::mem::size_of` for each scalar kind, as used by `ToGlAttrib::size`. -/
def BaseKind.size : BaseKind → Nat
  | .i8 => 1
  | .i16 => 2
  | .i32 => 4
  | .u8 => 1
  | .u16 => 2
  | .u32 => 4
  | .f32 => 4
  | .f64 => 8
  | .bool => 1

/-- The GL enum constant each kind maps to (`gl::BYTE = 0x1400`, etc.;
`bool => gl::BYTE`). -/
def BaseKind.glEnum : BaseKind → Nat
  | .i8 => 0x1400
  | .i16 => 0x1402
  | .i32 => 0x1404
  | .u8 => 0x1401
  | .u16 => 0x1403
  | .u32 => 0x1405
  | .f32 => 0x1406
  | .f64 => 0x140A
  | .bool => 0x1400

/-- A scalar-level `ToGlAttrib` implementor: either a raw kind `T` or the
marker wrapper `Normalized<T>` over an integer kind. -/
inductive ScalarTy
  | raw (k : BaseKind)
  | Normalized (k : IntKind)
deriving DecidableEq, Repr

/-- `ToGlAttrib::size` at scalar level: `size_of::<T>()`;
`Normalized<T>` is a newtype over `T`, so its size is `T`'s size. -/
def ScalarTy.size : ScalarTy → Nat
  | .raw k => k.size
  | .Normalized k => k.toBase.size

/-- `ToGlAttrib::gl_enum` at scalar level (the normalized impls reuse the
wrapped kind's enum). -/
def ScalarTy.glEnum : ScalarTy → Nat
  | .raw k => k.glEnum
  | .Normalized k => k.toBase.glEnum

/-- `ToGlAttrib::normalized`: `gl::FALSE` for raw kinds, `gl::TRUE` for
`Normalized<_>` kinds. -/
def ScalarTy.normalized : ScalarTy → Bool
  | .raw _ => false
  | .Normalized _ => true

/-- The component counts for which the source generates impls:
`T`, `[T; 2]`, `[T; 3]`, `[T; 4]`. -/
inductive Comps
  | one
  | two
  | three
  | four
deriving DecidableEq, Repr

/-- `ToGlAttrib::components` returns `i32` values 1–4. -/
def Comps.toInt : Comps → Int
  | .one => 1
  | .two => 2
  | .three => 3
  | .four => 4

/-- One concrete `ToGlAttrib` implementor: a scalar kind together with a
component count (scalar or `[T; 2..4]` vector form). -/
structure GlAttrib where
  scalar : ScalarTy
  comps : Comps
deriving DecidableEq, Repr

/-- `ToGlAttrib::size`: the vector impls delegate to the scalar's size
(size of one component). -/
def GlAttrib.size (t : GlAttrib) : Nat := t.scalar.size

/-- `ToGlAttrib::alignment`: the default trait method, `Self::size()`;
no provided kind overrides it. -/
def GlAttrib.alignment (t : GlAttrib) : Nat := t.size

/-- `ToGlAttrib::components` (an `i32` in the source). -/
def GlAttrib.components (t : GlAttrib) : Int := t.comps.toInt

/-- `ToGlAttrib::gl_enum`. -/
def GlAttrib.glEnum (t : GlAttrib) : Nat := t.scalar.glEnum

/-- `ToGlAttrib::normalized`. -/
def GlAttrib.normalized (t : GlAttrib) : Bool := t.scalar.normalized

/-- The attribute chain: `AttributeTail` is the terminal marker and
`Attribute<T, A>` one link holding an element and its continuation. -/
inductive AttrChain
  | tail
  | attr (t : GlAttrib) (a : AttrChain)
deriving DecidableEq, Repr

/-- `AttributeTrait::padding`: `AttributeTail` reports 0;
`Attribute<T, A>` computes
`(T::alignment() - offset % T::alignment()) % T::alignment()`
over `usize`. -/
def padding : AttrChain → Nat → Nat
  | .tail, _ => 0
  | .attr t _, offset => (t.alignment - offset % t.alignment) % t.alignment

/-- `AttributeTrait::stride`:
`AttributeTail` returns
`total + (max_alignment - total % max_alignment) % max_alignment`
over `i32` (a `%` by zero panics in Rust, rendered here as `none`);
`Attribute<T, A>` adds its own padding of `total` and its data size, then
recurses with `max(T::alignment() as i32, max_alignment)`. -/
def strideRec : AttrChain → Int → Int → Option Int
  | .tail, total, maxAlignment =>
      if maxAlignment = 0 then none
      else some (total + Int.tmod (maxAlignment - Int.tmod total maxAlignment) maxAlignment)
  | .attr t a, total, maxAlignment =>
      let total2 : Int := total + (padding (.attr t a) total.toNat : Int)
      let size : Int := (t.size : Int) * t.components
      strideRec a (total2 + size) (max (t.alignment : Int) maxAlignment)

/-- The two GL calls `Attribute::declare` can issue for one element:
`gl::EnableVertexAttribArray` and `gl::VertexAttribPointer`. -/
inductive GlCall
  | enableVertexAttribArray (index : Nat)
  | vertexAttribPointer (index : Nat) (components : Int) (glEnum : Nat)
      (normalized : Bool) (stride : Int) (offset : Nat)
deriving DecidableEq, Repr

/-- `AttributeTrait::declare`: the terminal marker emits nothing;
`Attribute<T, A>` pads the offset, emits the enable/describe pair for its
slot, and recurses at `index + 1` with the offset advanced by
`T::size() * T::components() as usize`. -/
def declareRec : AttrChain → Nat → Nat → Int → List GlCall
  | .tail, _, _, _ => []
  | .attr t a, index, offset, stride =>
      let offset2 : Nat := offset + padding (.attr t a) offset
      .enableVertexAttribArray index ::
      .vertexAttribPointer index t.components t.glEnum t.normalized stride offset2 ::
      declareRec a (index + 1) (offset2 + t.size * t.components.toNat) stride

/-- The public inherent `Attribute::<T, A>::stride()`:
`<Self as AttributeTrait>::stride(0, T::alignment() as i32)`. -/
def stridePub (t : GlAttrib) (a : AttrChain) : Option Int :=
  strideRec (.attr t a) 0 (t.alignment : Int)

/-- The public inherent `Attribute::<T, A>::declare(index)`:
`<Self as AttributeTrait>::declare(index, 0, Self::stride())`
(a panic inside `stride` propagates). -/
def declarePub (t : GlAttrib) (a : AttrChain) (index : Nat) : Option (List GlCall) :=
  (stridePub t a).map fun s => declareRec (.attr t a) index 0 s

/-- The `__buffer_layout_inner` macro: walk the (already reversed) type
list, wrapping the parsed continuation as `Attribute<next, parsed>`; the
seed continuation is `AttributeTail`. -/
def buffer_layout_inner : List GlAttrib → AttrChain → AttrChain
  | [], parsed => parsed
  | next :: remaining, parsed => buffer_layout_inner remaining (.attr next parsed)

/-- The `buffer_layout!` macro: `reverse_then_call_buffer_layout_inner`
reverses the caller's type list, then `__buffer_layout_inner` nests it. -/
def buffer_layout (ts : List GlAttrib) : AttrChain :=
  buffer_layout_inner ts.reverse .tail

/-- Dispatch the public `stride()` of the `Attribute` type a layout macro
produced (the terminal marker alone has no public entry point). -/
def strideTop : AttrChain → Option Int
  | .tail => none
  | .attr t a => stridePub t a

/-- Dispatch the public `declare(index)` of the `Attribute` type a layout
macro produced. -/
def declareTop : AttrChain → Nat → Option (List GlCall)
  | .tail, _ => none
  | .attr t a, index => declarePub t a index

/-- The elements of a chain, outermost first. -/
def chainElems : AttrChain → List GlAttrib
  | .tail => []
  | .attr t a => t :: chainElems a

/-- One emitted `VertexAttribPointer` directive, for stating properties of
the call trace. -/
structure Vap where
  index : Nat
  components : Int
  glEnum : Nat
  normalized : Bool
  stride : Int
  offset : Nat
deriving DecidableEq, Repr

/-- Extract the directive of a `VertexAttribPointer` call. -/
def toVap : GlCall → Option Vap
  | .vertexAttribPointer i c g n s o => some ⟨i, c, g, n, s, o⟩
  | _ => none

/-- The `VertexAttribPointer` directives of a call trace, in emission
order. -/
def vaps (l : List GlCall) : List Vap := l.filterMap toVap

/-- The largest alignment among a list of elements (the spec's
`max_alignment(chain)`), as an `i32` value; 1 for the empty list. -/
def maxAlignment (es : List GlAttrib) : Int :=
  es.foldr (fun e m => max (e.alignment : Int) m) 1

/-- One slot of the mock GL attribute state used by the source's tests:
`(bool, i32, GLenum, GLboolean, i32, usize)`. -/
structure Slot where
  enabled : Bool
  components : Int
  glEnum : Nat
  normalized : Bool
  stride : Int
  ptr : Nat
deriving DecidableEq, Repr

/-- The initial mock slot state `(false, 0, 0, gl::FALSE, 0, 0)`. -/
def initSlot : Slot := ⟨false, 0, 0, false, 0, 0⟩

/-- Effect of one GL call on the attribute-slot state, mirroring the
test mock: `enable_attrib` sets the enabled flag of its slot;
`attr_ptr` overwrites the five format fields of its slot; no other slot
is touched. -/
def applyCall (s : Nat → Slot) : GlCall → Nat → Slot
  | .enableVertexAttribArray i => fun j =>
      if j = i then { s j with enabled := true } else s j
  | .vertexAttribPointer i c g n st p => fun j =>
      if j = i then
        { s j with components := c, glEnum := g, normalized := n, stride := st, ptr := p }
      else s j

/-- Run a call trace against the attribute-slot state. -/
def applyCalls (s : Nat → Slot) (l : List GlCall) : Nat → Slot :=
  l.foldl applyCall s

/-- The slot index a GL call addresses. -/
def GlCall.slot : GlCall → Nat
  | .enableVertexAttribArray i => i
  | .vertexAttribPointer i _ _ _ _ _ => i

/-- The concrete chains exercised by the source's tests and the spec's
worked scenarios. -/
def scalarF32 : GlAttrib := ⟨.raw .f32, .one⟩

def scalarI16 : GlAttrib := ⟨.raw .i16, .one⟩

def scalarI8 : GlAttrib := ⟨.raw .i8, .one⟩

/-- The chain of the test `supports_layouts_with_padding_on_the_end`:
`buffer_layout!(f32, i16, i8, i16)`. -/
def paddedLayout : AttrChain := buffer_layout [scalarF32, scalarI16, scalarI8, scalarI16]

def vecF32x3 : GlAttrib := ⟨.raw .f32, .three⟩

def vecF32x2 : GlAttrib := ⟨.raw .f32, .two⟩

def vecNU8x4 : GlAttrib := ⟨.Normalized .u8, .four⟩

def vecNI16x3 : GlAttrib := ⟨.Normalized .i16, .three⟩

/-- The chain of the test `supports_a_basic_vertex_format`:
`buffer_layout!([f32; 3], [f32; 2], [Normalized<u8>; 4], [Normalized<i16>; 3])`. -/
def basicVertexLayout : AttrChain :=
  buffer_layout [vecF32x3, vecF32x2, vecNU8x4, vecNI16x3]

/-- A 17-element list, one more element than the 16 attribute slots of the
test mock's state table. -/
def seventeenF32 : List GlAttrib := List.replicate 17 scalarF32

/-- Written from the spec's words for the refinement claim: the public
entry point defined as `stride() = stride(0, 1)` over the full chain, the
running maximum alignment seeded with 1 instead of the first element's
alignment. -/
def strideSpecEntry (t : GlAttrib) (a : AttrChain) : Option Int :=
  strideRec (.attr t a) 0 1

/-- Proof-side scaffolding: the value of the running `max_alignment`
argument when the `stride` recursion reaches the terminal marker. -/
def foldAlign : AttrChain → Int → Int
  | .tail, m => m
  | .attr t a, m => foldAlign a (max (t.alignment : Int) m)

section Lemmas

lemma ScalarTy.size_pos (s : ScalarTy) : 1 ≤ s.size := by
  cases s with
  | raw k => cases k <;> decide
  | Normalized k => cases k <;> decide

lemma GlAttrib.alignment_pos (t : GlAttrib) : 1 ≤ t.alignment :=
  t.scalar.size_pos

lemma Comps.toInt_pos (c : Comps) : 1 ≤ c.toInt := by cases c <;> decide

lemma GlAttrib.components_pos (t : GlAttrib) : 1 ≤ t.components :=
  t.comps.toInt_pos

lemma size_mul_comps_cast (t : GlAttrib) :
    ((t.size * t.components.toNat : Nat) : Int) = (t.size : Int) * t.components := by
  rcases t with ⟨s, c⟩
  cases c <;> simp [GlAttrib.components, GlAttrib.size, Comps.toInt]

lemma pad_mod (al off : Nat) (hal : 1 ≤ al) :
    (off + (al - off % al) % al) % al = 0 := by
  rcases Nat.eq_zero_or_pos (off % al) with h | h
  · simp [h, Nat.mod_self]
  · have hlt : off % al < al := Nat.mod_lt off hal
    have h2 : (al - off % al) % al = al - off % al := Nat.mod_eq_of_lt (by omega)
    rw [h2]
    have h3 : off + (al - off % al) = al * (off / al + 1) := by
      have h4 := Nat.div_add_mod off al
      have h5 : al * (off / al + 1) = al * (off / al) + al := Nat.mul_succ al _
      omega
    rw [h3]
    exact Nat.mul_mod_right al _

lemma pad_eq_zero (al off : Nat) (h : off % al = 0) :
    (al - off % al) % al = 0 := by
  rw [h]
  simp [Nat.mod_self]

lemma pad_min (al off k : Nat) (hal : 1 ≤ al) (hk : (off + k) % al = 0) :
    (al - off % al) % al ≤ k := by
  rcases Nat.eq_zero_or_pos (off % al) with h | h
  · simp [h, Nat.mod_self]
  · have hlt : off % al < al := Nat.mod_lt off hal
    have h2 : (al - off % al) % al = al - off % al := Nat.mod_eq_of_lt (by omega)
    rw [h2]
    by_contra hc
    push_neg at hc
    have h4 := Nat.div_add_mod off al
    have h5 : off + k = al * (off / al) + (off % al + k) := by omega
    rw [h5, Nat.mul_add_mod] at hk
    have h6 : off % al + k < al := by omega
    rw [Nat.mod_eq_of_lt h6] at hk
    omega

lemma tmod_round_eq (total m : Int) (h0 : 0 ≤ total) (hm : 1 ≤ m) :
    total + Int.tmod (m - Int.tmod total m) m
      = ((total.toNat + (m.toNat - total.toNat % m.toNat) % m.toNat : Nat) : Int) := by
  obtain ⟨tn, rfl⟩ : ∃ tn : Nat, total = (tn : Int) :=
    ⟨total.toNat, (Int.toNat_of_nonneg h0).symm⟩
  obtain ⟨mn, rfl⟩ : ∃ mn : Nat, m = (mn : Int) :=
    ⟨m.toNat, (Int.toNat_of_nonneg (by omega)).symm⟩
  have hmn : 1 ≤ mn := by exact_mod_cast hm
  have hlt : tn % mn < mn := Nat.mod_lt tn hmn
  have h1 : Int.tmod (tn : Int) (mn : Int) = ((tn % mn : Nat) : Int) :=
    (Int.ofNat_tmod tn mn).symm
  have h2 : ((mn - tn % mn : Nat) : Int) = (mn : Int) - ((tn % mn : Nat) : Int) :=
    Nat.cast_sub (le_of_lt hlt)
  have h3 : Int.tmod ((mn - tn % mn : Nat) : Int) (mn : Int)
      = (((mn - tn % mn) % mn : Nat) : Int) := (Int.ofNat_tmod _ _).symm
  rw [h1, ← h2, h3]
  push_cast
  simp

lemma maxAlignment_pos (es : List GlAttrib) : 1 ≤ maxAlignment es := by
  induction es with
  | nil => simp [maxAlignment]
  | cons e es ih =>
      simp only [maxAlignment, List.foldr_cons] at *
      exact le_trans ih (le_max_right _ _)

lemma maxAlignment_cons (e : GlAttrib) (es : List GlAttrib) :
    maxAlignment (e :: es) = max (e.alignment : Int) (maxAlignment es) := rfl

lemma foldAlign_eq (a : AttrChain) : ∀ m : Int, 1 ≤ m →
    foldAlign a m = max m (maxAlignment (chainElems a)) := by
  induction a with
  | tail =>
      intro m hm
      simp [foldAlign, chainElems, maxAlignment]
      omega
  | attr t a ih =>
      intro m hm
      have h1 : (1 : Int) ≤ max (t.alignment : Int) m := le_trans hm (le_max_right _ _)
      rw [foldAlign, ih _ h1, chainElems, maxAlignment_cons]
      rw [max_comm (t.alignment : Int) m, max_assoc]

lemma strideRec_spec (c : AttrChain) : ∀ total m : Int, 0 ≤ total → 1 ≤ m →
    ∃ s, strideRec c total m = some s ∧ total ≤ s ∧ s % foldAlign c m = 0 := by
  induction c with
  | tail =>
      intro total m h0 hm
      refine ⟨total + Int.tmod (m - Int.tmod total m) m, ?_, ?_, ?_⟩
      · simp [strideRec, show m ≠ 0 by omega]
      · rw [tmod_round_eq total m h0 hm]
        omega
      · rw [tmod_round_eq total m h0 hm]
        obtain ⟨mn, rfl⟩ : ∃ mn : Nat, m = (mn : Int) := ⟨m.toNat, by omega⟩
        have hmn : 1 ≤ mn := by exact_mod_cast hm
        simp only [Int.toNat_ofNat, foldAlign]
        rw [← Int.ofNat_emod, pad_mod mn total.toNat hmn]
        rfl
  | attr t a ih =>
      intro total m h0 hm
      have hsz : (0 : Int) ≤ (t.size : Int) * t.components :=
        mul_nonneg (by positivity) (by have := t.components_pos; omega)
      have h0' : (0 : Int) ≤ total + (padding (.attr t a) total.toNat : Int)
          + (t.size : Int) * t.components := by
        have : (0 : Int) ≤ (padding (.attr t a) total.toNat : Int) := by positivity
        omega
      have hm' : (1 : Int) ≤ max (t.alignment : Int) m := le_trans hm (le_max_right _ _)
      obtain ⟨s, hs, hle, hmod⟩ := ih _ _ h0' hm'
      refine ⟨s, ?_, ?_, ?_⟩
      · rw [strideRec]
        exact hs
      · have : (0 : Int) ≤ (padding (.attr t a) total.toNat : Int) := by positivity
        omega
      · exact hmod

lemma strideRec_le (c : AttrChain) (total m s : Int) (h0 : 0 ≤ total) (hm : 1 ≤ m)
    (hs : strideRec c total m = some s) : total ≤ s := by
  obtain ⟨s', hs', hle, _⟩ := strideRec_spec c total m h0 hm
  rw [hs] at hs'
  injection hs' with h
  omega

lemma stridePub_spec (t : GlAttrib) (a : AttrChain) :
    ∃ s, stridePub t a = some s ∧ 0 ≤ s ∧
      s % maxAlignment (chainElems (.attr t a)) = 0 := by
  have hal : (1 : Int) ≤ (t.alignment : Int) := by
    have := t.alignment_pos
    omega
  obtain ⟨s, hs, hle, hmod⟩ := strideRec_spec (.attr t a) 0 (t.alignment : Int) le_rfl hal
  refine ⟨s, hs, hle, ?_⟩
  have h1 : foldAlign (.attr t a) (t.alignment : Int)
      = maxAlignment (chainElems (.attr t a)) := by
    rw [show foldAlign (.attr t a) (t.alignment : Int)
          = foldAlign a (max (t.alignment : Int) (t.alignment : Int)) from rfl]
    rw [foldAlign_eq a _ (by simp [hal]), chainElems, maxAlignment_cons]
    simp
  rw [← h1]
  exact hmod

lemma buffer_layout_inner_spec (l : List GlAttrib) : ∀ p : AttrChain,
    buffer_layout_inner l p = l.reverse.foldr AttrChain.attr p := by
  induction l with
  | nil => intro p; rfl
  | cons next remaining ih =>
      intro p
      rw [buffer_layout_inner, ih, List.reverse_cons, List.foldr_append]
      rfl

lemma buffer_layout_eq (ts : List GlAttrib) :
    buffer_layout ts = ts.foldr AttrChain.attr .tail := by
  rw [buffer_layout, buffer_layout_inner_spec, List.reverse_reverse]

lemma chainElems_foldr (ts : List GlAttrib) :
    chainElems (ts.foldr AttrChain.attr .tail) = ts := by
  induction ts with
  | nil => rfl
  | cons t ts ih => simp [List.foldr_cons, chainElems, ih]

lemma vaps_declareRec_cons (t : GlAttrib) (a : AttrChain) (idx offset : Nat) (str : Int) :
    vaps (declareRec (.attr t a) idx offset str)
      = ⟨idx, t.components, t.glEnum, t.normalized, str,
            offset + padding (.attr t a) offset⟩
        :: vaps (declareRec a (idx + 1)
            (offset + padding (.attr t a) offset + t.size * t.components.toNat) str) := by
  simp [declareRec, vaps, toVap]

lemma declare_offsets_aligned (c : AttrChain) : ∀ (idx offset : Nat) (str : Int),
    List.Forall₂ (fun (d : Vap) (e : GlAttrib) => d.offset % e.alignment = 0)
      (vaps (declareRec c idx offset str)) (chainElems c) := by
  induction c with
  | tail =>
      intro idx offset str
      simp [declareRec, vaps, chainElems]
  | attr t a ih =>
      intro idx offset str
      rw [vaps_declareRec_cons, chainElems]
      refine List.Forall₂.cons ?_ (ih _ _ _)
      show (offset + padding (.attr t a) offset) % t.alignment = 0
      rw [padding]
      exact pad_mod t.alignment offset t.alignment_pos

lemma vaps_map_spec (c : AttrChain) : ∀ (idx offset : Nat) (str : Int),
    (vaps (declareRec c idx offset str)).map Vap.index
        = List.range' idx (chainElems c).length ∧
    (vaps (declareRec c idx offset str)).map Vap.components
        = (chainElems c).map GlAttrib.components ∧
    (vaps (declareRec c idx offset str)).map Vap.glEnum
        = (chainElems c).map GlAttrib.glEnum ∧
    (vaps (declareRec c idx offset str)).map Vap.normalized
        = (chainElems c).map GlAttrib.normalized := by
  induction c with
  | tail =>
      intro idx offset str
      simp [declareRec, vaps, chainElems]
  | attr t a ih =>
      intro idx offset str
      obtain ⟨h1, h2, h3, h4⟩ :=
        ih (idx + 1) (offset + padding (.attr t a) offset + t.size * t.components.toNat) str
      rw [vaps_declareRec_cons, chainElems]
      simp [List.map_cons, List.length_cons, h1, h2, h3, h4, List.range'_succ]

lemma declareRec_slot_mem (c : AttrChain) : ∀ (idx offset : Nat) (str : Int) (call : GlCall),
    call ∈ declareRec c idx offset str →
    idx ≤ call.slot ∧ call.slot < idx + (chainElems c).length := by
  induction c with
  | tail =>
      intro idx offset str call h
      simp [declareRec] at h
  | attr t a ih =>
      intro idx offset str call h
      simp only [declareRec, List.mem_cons] at h
      rcases h with rfl | rfl | h
      · simp [GlCall.slot, chainElems]
      · simp [GlCall.slot, chainElems]
      · obtain ⟨h1, h2⟩ := ih _ _ _ _ h
        simp only [chainElems, List.length_cons]
        omega

lemma applyCall_ne (s : Nat → Slot) (call : GlCall) (j : Nat) (h : j ≠ call.slot) :
    applyCall s call j = s j := by
  cases call with
  | enableVertexAttribArray i =>
      simp only [GlCall.slot] at h
      simp [applyCall, h]
  | vertexAttribPointer i c g n st p =>
      simp only [GlCall.slot] at h
      simp [applyCall, h]

lemma applyCalls_ne (l : List GlCall) : ∀ (s : Nat → Slot) (j : Nat),
    (∀ call ∈ l, j ≠ call.slot) → applyCalls s l j = s j := by
  induction l with
  | nil => intro s j _; rfl
  | cons call l ih =>
      intro s j h
      show applyCalls (applyCall s call) l j = s j
      rw [ih _ _ fun c hc => h c (List.mem_cons_of_mem call hc)]
      exact applyCall_ne s call j (h call (List.mem_cons_self call l))

lemma declare_offsets_bounded (c : AttrChain) : ∀ (idx : Nat) (total m str s : Int),
    0 ≤ total → 1 ≤ m → strideRec c total m = some s →
    List.Forall₂ (fun (d : Vap) (e : GlAttrib) =>
        (d.offset : Int) + (e.size : Int) * e.components ≤ s)
      (vaps (declareRec c idx total.toNat str)) (chainElems c) := by
  induction c with
  | tail =>
      intro idx total m str s _ _ _
      simp [declareRec, vaps, chainElems]
  | attr t a ih =>
      intro idx total m str s h0 hm hs
      have hpad : (0 : Int) ≤ (padding (.attr t a) total.toNat : Int) := by positivity
      have hsz : (0 : Int) ≤ (t.size : Int) * t.components :=
        mul_nonneg (by positivity) (by have := t.components_pos; omega)
      have h0' : 0 ≤ total + (padding (.attr t a) total.toNat : Int)
          + (t.size : Int) * t.components := by omega
      have hm' : (1 : Int) ≤ max (t.alignment : Int) m := le_trans hm (le_max_right _ _)
      have hs' : strideRec a
          (total + (padding (.attr t a) total.toNat : Int) + (t.size : Int) * t.components)
          (max (t.alignment : Int) m) = some s := by
        rw [strideRec] at hs
        exact hs
      have hc := size_mul_comps_cast t
      have hofs : total.toNat + padding (.attr t a) total.toNat + t.size * t.components.toNat
          = (total + (padding (.attr t a) total.toNat : Int)
              + (t.size : Int) * t.components).toNat := by omega
      rw [vaps_declareRec_cons, chainElems]
      refine List.Forall₂.cons ?_ ?_
      · show ((total.toNat + padding (.attr t a) total.toNat : Nat) : Int)
            + (t.size : Int) * t.components ≤ s
        have hle := strideRec_le a _ _ s h0' hm' hs'
        push_cast
        omega
      · rw [hofs]
        exact ih (idx + 1) _ (max (t.alignment : Int) m) str s h0' hm' hs'

end Lemmas

/-- C1: for every chain built from at least one element kind, the value
returned by the public `stride()` entry point is an exact multiple of the
maximum alignment among all elements of the chain. -/
theorem stride_multiple_of_max_alignment (t : GlAttrib) (a : AttrChain) :
    ∃ s, stridePub t a = some s ∧ s % maxAlignment (chainElems (.attr t a)) = 0 := by
  obtain ⟨s, hs, _, hmod⟩ := stridePub_spec t a
  exact ⟨s, hs, hmod⟩

/-- C2: every byte offset passed to a directive emitted by `declare`
is a multiple of its element's alignment; the padding
`(alignment - offset % alignment) % alignment` is 0 when the offset is
already aligned, realigns the offset, and is the minimum such byte
count. -/
theorem declare_offset_alignment_and_min_padding
    (t : GlAttrib) (a : AttrChain) (b : Nat)
    (g : GlAttrib) (gr : AttrChain) (off k : Nat) :
    List.Forall₂ (fun (d : Vap) (e : GlAttrib) => d.offset % e.alignment = 0)
      (vaps ((declarePub t a b).getD [])) (chainElems (.attr t a)) ∧
    (off + padding (.attr g gr) off) % g.alignment = 0 ∧
    (off % g.alignment = 0 → padding (.attr g gr) off = 0) ∧
    ((off + k) % g.alignment = 0 → padding (.attr g gr) off ≤ k) := by
  obtain ⟨s, hs, _, _⟩ := stridePub_spec t a
  refine ⟨?_, ?_, ?_, ?_⟩
  · simp only [declarePub, hs, Option.map_some', Option.getD_some]
    exact declare_offsets_aligned (.attr t a) b 0 s
  · rw [padding]
    exact pad_mod g.alignment off g.alignment_pos
  · intro h
    rw [padding]
    exact pad_eq_zero g.alignment off h
  · intro h
    rw [padding]
    exact pad_min g.alignment off k g.alignment_pos h

/-- Witness for C2 at concrete inputs: offset 4 is already aligned for an
`i16` element (padding 0), and from offset 7 the padding 1 is within the
byte count 1 that realigns it. -/
theorem declare_offset_alignment_witness :
    padding (.attr scalarI16 .tail) 4 = 0 ∧ padding (.attr scalarI16 .tail) 7 ≤ 1 := by
  have h4 := declare_offset_alignment_and_min_padding scalarF32 .tail 0 scalarI16 .tail 4 0
  have h7 := declare_offset_alignment_and_min_padding scalarF32 .tail 0 scalarI16 .tail 7 1
  exact ⟨h4.2.2.1 (by decide), h7.2.2.2 (by decide)⟩

/-- C3: for the chain `[f32, i16, i8, i16]` the emitted offsets are
`[0, 4, 6, 8]`, one byte of padding realigns offset 7 for the final
`i16`, and the public `stride()` returns 12. -/
theorem padded_layout_offsets_and_stride :
    strideTop paddedLayout = some 12 ∧
    (vaps ((declareTop paddedLayout 0).getD [])).map Vap.offset = [0, 4, 6, 8] ∧
    padding (.attr scalarI16 .tail) 7 = 1 := by
  refine ⟨rfl, rfl, rfl⟩

/-- C4: every emitted byte offset plus its element's data size
(`byte_size × component_count`) is at most the value returned by the
public `stride()` entry point. -/
theorem declare_data_within_stride (t : GlAttrib) (a : AttrChain) (b : Nat) :
    ∃ s, stridePub t a = some s ∧
      List.Forall₂ (fun (d : Vap) (e : GlAttrib) =>
          (d.offset : Int) + (e.size : Int) * e.components ≤ s)
        (vaps ((declarePub t a b).getD [])) (chainElems (.attr t a)) := by
  obtain ⟨s, hs, _, _⟩ := stridePub_spec t a
  have hal : (1 : Int) ≤ (t.alignment : Int) := by
    have := t.alignment_pos
    omega
  refine ⟨s, hs, ?_⟩
  simp only [declarePub, hs, Option.map_some', Option.getD_some]
  have h := declare_offsets_bounded (.attr t a) b 0 (t.alignment : Int) s s le_rfl hal hs
  simpa using h

/-- C5: for every input list and base index, `declare` emits exactly one
directive per list element, in input order, at consecutive indices
`b, b + 1, …`, despite the builder reversing the list before nesting. -/
theorem declare_order_preserved (t : GlAttrib) (ts : List GlAttrib) (b : Nat) :
    (vaps ((declareTop (buffer_layout (t :: ts)) b).getD [])).map Vap.index
        = List.range' b (t :: ts).length ∧
    (vaps ((declareTop (buffer_layout (t :: ts)) b).getD [])).map Vap.components
        = (t :: ts).map GlAttrib.components ∧
    (vaps ((declareTop (buffer_layout (t :: ts)) b).getD [])).map Vap.glEnum
        = (t :: ts).map GlAttrib.glEnum ∧
    (vaps ((declareTop (buffer_layout (t :: ts)) b).getD [])).map Vap.normalized
        = (t :: ts).map GlAttrib.normalized := by
  have hb : buffer_layout (t :: ts) = .attr t (ts.foldr AttrChain.attr .tail) := by
    rw [buffer_layout_eq]
    rfl
  obtain ⟨s, hs, _, _⟩ := stridePub_spec t (ts.foldr AttrChain.attr .tail)
  rw [hb]
  simp only [declareTop, declarePub, hs, Option.map_some', Option.getD_some]
  have h := vaps_map_spec (.attr t (ts.foldr AttrChain.attr .tail)) b 0 s
  rwa [show chainElems (.attr t (ts.foldr AttrChain.attr .tail)) = t :: ts by
    rw [chainElems, chainElems_foldr]] at h

/-- C6: seeding the running maximum alignment with 1 (the spec's
`stride() = stride(0, 1)`) yields the same result as the code's seed of
the first element's alignment. -/
theorem stride_entry_seed_irrelevant (t : GlAttrib) (a : AttrChain) :
    stridePub t a = strideSpecEntry t a := by
  have hal : (1 : Int) ≤ (t.alignment : Int) := by
    have := t.alignment_pos
    omega
  rw [stridePub, strideSpecEntry]
  simp only [strideRec]
  rw [max_self, max_eq_left hal]

/-- C7 counterexample: the public `stride()` of the chain
`[3×f32, 2×f32, 4×normalized-u8, 3×normalized-i16]` is not 42. -/
theorem basic_vertex_stride_not_42 :
    strideTop basicVertexLayout ≠ some 42 := by decide

/-- C7 amended: for that chain `stride()` returns 32 (total 30 rounded up
to the next multiple of the maximum alignment 4), and `declare` assigns
offsets `[0, 12, 20, 24]`. -/
theorem basic_vertex_stride_and_offsets :
    strideTop basicVertexLayout = some 32 ∧
    (vaps ((declareTop basicVertexLayout 0).getD [])).map Vap.offset
      = [0, 12, 20, 24] := by
  refine ⟨rfl, rfl⟩

/-- C8 counterexample: a 17-element list (one more than the 16 attribute
slots) is accepted without any configuration error: `declare(0)` emits a
directive for every element, at slots 0 through 16. -/
theorem seventeen_attribs_all_declared :
    (declareTop (buffer_layout seventeenF32) 0).isSome = true ∧
    (vaps ((declareTop (buffer_layout seventeenF32) 0).getD [])).map Vap.index
      = List.range' 0 17 := by
  refine ⟨rfl, rfl⟩

/-- C8 amended: the layout builder performs no slot-count check at all:
every non-empty element list, of any length, is constructed without an
error, and `declare` emits exactly one directive per element — nothing is
truncated, clamped, or rejected. -/
theorem layout_never_rejects_long_lists (t : GlAttrib) (ts : List GlAttrib) (b : Nat) :
    (declareTop (buffer_layout (t :: ts)) b).isSome = true ∧
    (vaps ((declareTop (buffer_layout (t :: ts)) b).getD [])).length
      = (t :: ts).length := by
  have hb : buffer_layout (t :: ts) = .attr t (ts.foldr AttrChain.attr .tail) := by
    rw [buffer_layout_eq]
    rfl
  obtain ⟨s, hs, _, _⟩ := stridePub_spec t (ts.foldr AttrChain.attr .tail)
  rw [hb]
  simp only [declareTop, declarePub, hs, Option.map_some', Option.getD_some,
    Option.isSome_some, true_and]
  obtain ⟨h1, _, _, _⟩ := vaps_map_spec (.attr t (ts.foldr AttrChain.attr .tail)) b 0 s
  have h2 := congrArg List.length h1
  rwa [List.length_map, List.length_range',
    show chainElems (.attr t (ts.foldr AttrChain.attr .tail)) = t :: ts by
      rw [chainElems, chainElems_foldr]] at h2

/-- C9: every element kind's alignment is at least 1, the running
`max_alignment` reaching the terminal marker from the public entry points
is at least 1, and therefore the `total % max_alignment` division by zero
(the `none` branch) is unreachable through `stride()` and `declare()`. -/
theorem stride_division_by_zero_unreachable :
    (∀ g : GlAttrib, 1 ≤ g.alignment) ∧
    (∀ (t : GlAttrib) (a : AttrChain) (b : Nat),
      (1 : Int) ≤ foldAlign (.attr t a) (t.alignment : Int) ∧
      (stridePub t a).isSome = true ∧
      (declarePub t a b).isSome = true) := by
  refine ⟨fun g => g.alignment_pos, fun t a b => ?_⟩
  have hal : (1 : Int) ≤ (t.alignment : Int) := by
    have := t.alignment_pos
    omega
  obtain ⟨s, hs, _, _⟩ := stridePub_spec t a
  refine ⟨?_, ?_, ?_⟩
  · rw [show foldAlign (.attr t a) (t.alignment : Int)
        = foldAlign a (max (t.alignment : Int) (t.alignment : Int)) from rfl]
    rw [foldAlign_eq a _ (by simp [hal])]
    have := maxAlignment_pos (chainElems a)
    rw [max_self]
    exact le_trans hal (le_max_left _ _)
  · simp [hs]
  · simp [declarePub, hs]

/-- C10: `declare(b)` on a chain of n elements touches only attribute
slots `b, …, b + n - 1`; every slot outside that range keeps its previous
state. -/
theorem declare_touches_only_its_slots (t : GlAttrib) (a : AttrChain) (b : Nat)
    (s0 : Nat → Slot) (j : Nat) (calls : List GlCall)
    (hc : declarePub t a b = some calls)
    (hj : j < b ∨ b + (chainElems (.attr t a)).length ≤ j) :
    applyCalls s0 calls j = s0 j := by
  refine applyCalls_ne calls s0 j fun call hcall => ?_
  obtain ⟨s, hs, _, _⟩ := stridePub_spec t a
  have hcalls : calls = declareRec (.attr t a) b 0 s := by
    rw [declarePub, hs] at hc
    injection hc with h
    exact h.symm
  subst hcalls
  obtain ⟨h1, h2⟩ := declareRec_slot_mem (.attr t a) b 0 s call hcall
  omega

/-- Witness for C10: declaring a one-element chain at base index 0 leaves
slot 5 untouched. -/
theorem declare_frame_witness :
    applyCalls (fun _ => initSlot) ((declarePub scalarF32 .tail 0).getD []) 5
      = (fun _ => initSlot : Nat → Slot) 5 :=
  declare_touches_only_its_slots scalarF32 .tail 0 _ 5 _ rfl (Or.inr (by decide))

end RusticGl
